import Mathlib

/-!
Shallow embedding of the chunk-reassembly message handler of
`src/GXP_ImageChunkingProject/app.py`.

The Python program keeps three module-level globals — `expected_chunks`
(initially `None`), `received_data` (a dict from chunk index to raw bytes,
initially empty) and `image_id` (initially `None`) — and mutates them from
the MQTT callback `on_message`.  We model the globals as a `State` record,
a delivered MQTT message as a `Msg`, and the callback as a pure step
function `on_message : String → State → Msg → Except PyError (State × List
Output)` returning the new globals together with the observable effects of
the step (log lines, the storage upload call and the metadata insert call),
or an error when the Python code would raise.  Byte strings are `List Nat`
(one entry per byte).  JSON decoding of the metadata payload is abstracted:
an info-topic message carries the already-decoded `total_chunks` (an `Int`,
since the code never validates it) and the optional `image_id` field; the
`now` argument stands for the timestamp used to synthesize a default id.
-/

namespace GXP

/-- A Python exception escaping the handler.  The only reachable one in the
modelled code is the `IndexError` from `msg.payload[1]` in the chunk branch
of `on_message` when the payload has exactly one byte. -/
inductive PyError where
  | indexError
deriving Repr, DecidableEq

/-- One observable effect of a handler step: a print statement, the Supabase
storage upload call, or the metadata-table insert call, in program order. -/
inductive Output where
  /-- `print(f"Expecting {expected_chunks} chunks for {image_id}")` -/
  | expecting (total : Int) (id : String)
  /-- `print("⚠ No metadata received before end marker")` -/
  | noMetadataWarning
  /-- `print("End marker received, stitching image")` -/
  | endMarkerLog
  /-- `print(f"Missing chunk {i}")` inside `upload_image_and_insert` -/
  | missingChunk (i : Nat)
  /-- `print(f"[+] All {expected_chunks} chunks stitched")` -/
  | stitched (total : Int)
  /-- `supabase.storage.from_(...).upload(filename, image_bytes, ...)` -/
  | uploadCall (key : String) (bytes : List Nat)
  /-- `supabase.table("gxp_raw_observations").insert({...})` -/
  | insertCall (imageId : String) (status : String)
  /-- `print("[✔] Uploaded and inserted record:", result)` -/
  | uploadedLog
  /-- `print(f"Duplicate chunk {chunk_num}, skipping.")` -/
  | duplicateChunk (i : Nat)
  /-- `print(f"Chunk {chunk_num} received ({len(data)} bytes)")` -/
  | chunkReceived (i : Nat) (len : Nat)
deriving Repr, DecidableEq

/-- An inbound MQTT message after topic dispatch.  `info` is a message on
`INFO_TOPIC` with its JSON payload already decoded; `chunk` is a message on
`CHUNK_TOPIC` carrying its raw byte payload (empty = end marker); `other`
is a message on any other topic, which `on_message` ignores. -/
inductive Msg where
  | info (total_chunks : Int) (image_id : Option String)
  | chunk (payload : List Nat)
  | other
deriving Repr, DecidableEq

/-- The module-level globals of `app.py`.  `received_data` is the dict,
modelled as an association list from chunk index to payload bytes (the code
inserts a key only when it is absent, so the key set stays duplicate-free
and list position is irrelevant to `lookup`). -/
structure State where
  expected_chunks : Option Int
  received_data : List (Nat × List Nat)
  image_id : Option String
deriving Repr, DecidableEq

/-- The globals at process start: `expected_chunks = None`,
`received_data = {}`, `image_id = None`. -/
def initialState : State := ⟨none, [], none⟩

/-- The reassembly loop of `upload_image_and_insert` (lines 31–36): iterate
`i` over `range(expected_chunks)` starting at `i`, with `k` iterations left;
stop with `.error i` at the first index absent from `received_data`,
otherwise append the payloads in index order. -/
def assembleFrom (buf : List (Nat × List Nat)) (i : Nat) : Nat → Except Nat (List Nat)
  | 0 => .ok []
  | k + 1 =>
    match buf.lookup i with
    | none => .error i
    | some p => (assembleFrom buf (i + 1) k).map (fun tail => p ++ tail)

/-- `upload_image_and_insert` (lines 27–56): reassemble the buffered chunks
in index order; on the first missing index print `Missing chunk i` and
return.  On success, upload the stitched bytes under `f"{image_id}.jpg"`
and insert the metadata record with `chunk_status: "complete"`.  The
function reads the globals; the end-marker branch that calls it guarantees
`expected_chunks` is set, so the `getD` defaults are never exercised from a
reachable call site. -/
def upload_image_and_insert (st : State) : List Output :=
  let n : Int := st.expected_chunks.getD 0
  match assembleFrom st.received_data 0 n.toNat with
  | .error i => [.missingChunk i]
  | .ok bytes =>
    let iid := st.image_id.getD "None"
    [.stitched n, .uploadCall (iid ++ ".jpg") bytes, .insertCall iid "complete", .uploadedLog]

/-- `on_message` (lines 62–88).  Info topic: set `expected_chunks` and
`image_id` (defaulting to `f"img-{timestamp}"`, with `now` the timestamp)
and clear the buffer.  Chunk topic with empty payload (end marker): warn
and return if no metadata yet, else stitch/upload and reset
`expected_chunks` and the buffer (`image_id` is not reset).  Chunk topic
with nonempty payload: decode `chunk_num = (payload[0] << 8) | payload[1]`
— raising `IndexError` when the payload has a single byte — and store
`payload[2:]` unless the index is already present, in which case the
message is skipped.  Messages on other topics fall through all branches. -/
def on_message (now : String) (st : State) (m : Msg) : Except PyError (State × List Output) :=
  match m with
  | .info total id =>
    let iid := id.getD ("img-" ++ now)
    .ok (⟨some total, [], some iid⟩, [.expecting total iid])
  | .chunk [] =>
    match st.expected_chunks with
    | none => .ok (st, [.noMetadataWarning])
    | some _ =>
      .ok (⟨none, [], st.image_id⟩, .endMarkerLog :: upload_image_and_insert st)
  | .chunk [_] => .error .indexError
  | .chunk (b0 :: b1 :: data) =>
    let chunk_num := (b0 <<< 8) ||| b1
    if (st.received_data.lookup chunk_num).isSome then
      .ok (st, [.duplicateChunk chunk_num])
    else
      .ok ({ st with received_data := (chunk_num, data) :: st.received_data },
           [.chunkReceived chunk_num data.length])
  | .other => .ok (st, [])

/-- Deliver a list of messages in order, threading the globals and
concatenating the observable outputs; stop at the first raised error. -/
def runMsgs (now : String) (st : State) : List Msg → Except PyError (State × List Output)
  | [] => .ok (st, [])
  | m :: ms =>
    match on_message now st m with
    | .error e => .error e
    | .ok (st1, out1) =>
      match runMsgs now st1 ms with
      | .error e => .error e
      | .ok (st2, out2) => .ok (st2, out1 ++ out2)

/-- The sender-side big-endian 16-bit encoding of a chunk index, as the two
leading payload bytes expected by `on_message`. -/
def encodeIdx (i : Nat) : List Nat := [i / 256, i % 256]

/-- The chunk-topic message delivering payload `p.2` for index `p.1`. -/
def chunkMsgOf (p : Nat × List Nat) : Msg := .chunk (encodeIdx p.1 ++ p.2)

/-- Recognizes the storage upload call among the outputs. -/
def isUpload : Output → Bool
  | .uploadCall _ _ => true
  | _ => false

/-- Recognizes the metadata insert call among the outputs. -/
def isInsert : Output → Bool
  | .insertCall _ _ => true
  | _ => false

/-- Recognizes a `Missing chunk i` report among the outputs. -/
def isMissingReport : Output → Bool
  | .missingChunk _ => true
  | _ => false

/-- The spec's §3 buffer-bound invariant, stated on a `State`: once the
expected chunk count is known, the buffer holds at most that many distinct
indices. -/
def bufferBoundInv (st : State) : Prop :=
  match st.expected_chunks with
  | none => True
  | some n => (((st.received_data.map Prod.fst).dedup.length : Int) ≤ n)

/-- A message whose payload consists of actual byte values (each `< 256`),
i.e. one that the MQTT transport can really deliver. -/
def validMsg : Msg → Prop
  | .chunk payload => ∀ b ∈ payload, b < 256
  | _ => True

/-- The well-formedness of the chunk buffer that the code actually
maintains: the recorded indices are duplicate-free and each fits in the
16 bits the transport encodes them in. -/
def goodBuffer (l : List (Nat × List Nat)) : Prop :=
  (l.map Prod.fst).Nodup ∧ ∀ k ∈ l.map Prod.fst, k < 65536

instance validMsg.instDecidable (m : Msg) : Decidable (validMsg m) :=
  match m with
  | .chunk payload => inferInstanceAs (Decidable (∀ b ∈ payload, b < 256))
  | .info _ _ => inferInstanceAs (Decidable True)
  | .other => inferInstanceAs (Decidable True)

instance bufferBoundInv.instDecidable (st : State) : Decidable (bufferBoundInv st) := by
  unfold bufferBoundInv
  cases st.expected_chunks <;> infer_instance

instance goodBuffer.instDecidable (l : List (Nat × List Nat)) : Decidable (goodBuffer l) :=
  inferInstanceAs (Decidable (_ ∧ _))

/-- Decoding the two encoded index bytes recovers the index:
`(i / 256) << 8 | i % 256 = i`. -/
theorem decode_encodeIdx (i : Nat) : ((i / 256) <<< 8) ||| (i % 256) = i := by
  have h : (2 : Nat) ^ 8 * (i / 256) + i % 256 = 2 ^ 8 * (i / 256) ||| i % 256 :=
    Nat.mul_add_lt_is_or (Nat.mod_lt _ (by norm_num)) _
  have h2 : (i / 256) <<< 8 = 2 ^ 8 * (i / 256) := by
    rw [Nat.shiftLeft_eq]; ring
  rw [h2, ← h]
  have := Nat.div_add_mod i 256
  omega

/-- `lookup` misses exactly the keys not in the association list. -/
theorem lookup_eq_none_iff (l : List (Nat × List Nat)) (k : Nat) :
    l.lookup k = none ↔ k ∉ l.map Prod.fst := by
  induction l with
  | nil => simp [List.lookup]
  | cons p t ih =>
    obtain ⟨a, b⟩ := p
    by_cases h : k = a
    · subst h
      simp [List.lookup]
    · simp [List.lookup, beq_false_of_ne h, ih, h]

/-- In an association list with duplicate-free keys, `lookup` returns the
value of any member pair. -/
theorem lookup_eq_some_of_mem_nodup {l : List (Nat × List Nat)} {i : Nat} {v : List Nat}
    (hnd : (l.map Prod.fst).Nodup) (hm : (i, v) ∈ l) : l.lookup i = some v := by
  induction l with
  | nil => cases hm
  | cons p t ih =>
    obtain ⟨a, b⟩ := p
    simp only [List.map_cons, List.nodup_cons] at hnd
    rcases List.mem_cons.1 hm with h | h
    · obtain ⟨h1, h2⟩ := Prod.mk.injEq .. ▸ h
      subst h1; subst h2
      simp [List.lookup]
    · have hne : i ≠ a := by
        intro he
        exact hnd.1 (he ▸ List.mem_map.2 ⟨(i, v), h, rfl⟩)
      simp [List.lookup, beq_false_of_ne hne, ih hnd.2 h]

/-- Delivering a concatenation of message lists composes the runs. -/
theorem runMsgs_append (now : String) (st : State) (l1 l2 : List Msg) :
    runMsgs now st (l1 ++ l2) =
      match runMsgs now st l1 with
      | .error e => .error e
      | .ok (st1, o1) =>
        match runMsgs now st1 l2 with
        | .error e => .error e
        | .ok (st2, o2) => .ok (st2, o1 ++ o2) := by
  induction l1 generalizing st with
  | nil =>
    simp only [List.nil_append, runMsgs]
    cases runMsgs now st l2 with
    | error e => rfl
    | ok r => obtain ⟨st2, o2⟩ := r; rfl
  | cons m ms ih =>
    simp only [List.cons_append, runMsgs]
    cases on_message now st m with
    | error e => rfl
    | ok r =>
      obtain ⟨st1, o1⟩ := r
      dsimp only
      rw [List.append_eq, ih st1]
      cases runMsgs now st1 ms with
      | error e => rfl
      | ok r2 =>
        obtain ⟨st2, o2⟩ := r2
        dsimp only
        cases runMsgs now st2 l2 with
        | error e => rfl
        | ok r3 => obtain ⟨st3, o3⟩ := r3; simp

/-- Delivering chunk messages for a duplicate-free list of fresh indices
buffers every payload (in reverse arrival order, which `lookup` ignores),
logs one reception per chunk, and touches nothing else. -/
theorem runMsgs_chunks (now : String) (st : State) (ps : List (Nat × List Nat))
    (hnd : (ps.map Prod.fst).Nodup)
    (hfresh : ∀ p ∈ ps, st.received_data.lookup p.1 = none) :
    runMsgs now st (ps.map chunkMsgOf) =
      .ok ({ st with received_data := ps.reverse ++ st.received_data },
           ps.map fun p => Output.chunkReceived p.1 p.2.length) := by
  induction ps generalizing st with
  | nil => simp [runMsgs]
  | cons p t ih =>
    obtain ⟨i, pl⟩ := p
    simp only [List.map_cons, List.nodup_cons] at hnd
    have hf0 : st.received_data.lookup i = none := hfresh (i, pl) (List.mem_cons_self _ _)
    have hstep : on_message now st (chunkMsgOf (i, pl)) =
        .ok ({ st with received_data := (i, pl) :: st.received_data },
             [.chunkReceived i pl.length]) := by
      simp [on_message, chunkMsgOf, encodeIdx, decode_encodeIdx, hf0]
    have hfresh' : ∀ q ∈ t,
        ((i, pl) :: st.received_data).lookup q.1 = none := by
      intro q hq
      have hne : q.1 ≠ i := by
        intro he
        exact hnd.1 (he ▸ List.mem_map.2 ⟨q, hq, rfl⟩)
      simp [List.lookup, beq_false_of_ne hne, hfresh q (List.mem_cons_of_mem _ hq)]
    have ihres := ih { st with received_data := (i, pl) :: st.received_data } hnd.2 hfresh'
    simp only [List.map_cons, runMsgs, hstep, ihres]
    simp

/-- When every index in `[s, s + k)` is buffered, the reassembly loop
returns the payloads of `s, s + 1, …, s + k - 1` concatenated in order. -/
theorem assembleFrom_complete (buf : List (Nat × List Nat)) (f : Nat → List Nat) :
    ∀ k s, (∀ j, j < k → buf.lookup (s + j) = some (f (s + j))) →
    assembleFrom buf s k = .ok (((List.range k).map fun j => f (s + j)).flatten) := by
  intro k
  induction k with
  | zero => intro s _; simp [assembleFrom]
  | succ k ih =>
    intro s h
    have h0 : buf.lookup s = some (f s) := by
      have := h 0 (Nat.succ_pos k)
      simpa using this
    have hrest : ∀ j, j < k → buf.lookup (s + 1 + j) = some (f (s + 1 + j)) := by
      intro j hj
      have := h (j + 1) (by omega)
      have he : s + (j + 1) = s + 1 + j := by omega
      rwa [he] at this
    have hmap : ((List.range k).map fun j => f (s + 1 + j)) =
        ((List.range k).map fun j => f (s + (j + 1))) := by
      apply List.map_congr_left
      intro j _
      congr 1
      omega
    simp only [assembleFrom, h0, ih (s + 1) hrest, Except.map, List.range_succ_eq_map,
      List.map_cons, List.map_map, List.flatten]
    congr 2
    rw [hmap]
    rfl

/-- When every index below `m` (within the scanned window) is buffered but
`m` itself is absent, the reassembly loop stops at `m`: it reports exactly
the first missing index. -/
theorem assembleFrom_first_missing (buf : List (Nat × List Nat)) :
    ∀ k s m, s ≤ m → m < s + k → buf.lookup m = none →
    (∀ j, s ≤ j → j < m → (buf.lookup j).isSome) →
    assembleFrom buf s k = .error m := by
  intro k
  induction k with
  | zero => intro s m h1 h2 _ _; omega
  | succ k ih =>
    intro s m h1 h2 hm hbelow
    rcases Nat.eq_or_lt_of_le h1 with he | hlt
    · subst he
      simp [assembleFrom, hm]
    · have hs : (buf.lookup s).isSome := hbelow s (Nat.le_refl s) hlt
      obtain ⟨p, hp⟩ := Option.isSome_iff_exists.1 hs
      have htail : assembleFrom buf (s + 1) k = .error m :=
        ih (s + 1) m (by omega) (by omega) hm (fun j hj1 hj2 => hbelow j (by omega) hj2)
      simp [assembleFrom, hp, htail, Except.map]

/-- If the reassembly loop succeeds, every scanned index was buffered. -/
theorem assembleFrom_ok_lookup (buf : List (Nat × List Nat)) :
    ∀ k s bs, assembleFrom buf s k = .ok bs →
    ∀ j, j < k → (buf.lookup (s + j)).isSome := by
  intro k
  induction k with
  | zero => intro s bs _ j hj; omega
  | succ k ih =>
    intro s bs hok j hj
    cases hslookup : buf.lookup s with
    | none => simp [assembleFrom, hslookup] at hok
    | some p =>
      cases j with
      | zero => simp [hslookup]
      | succ j =>
        cases htail : assembleFrom buf (s + 1) k with
        | error e => simp [assembleFrom, hslookup, htail, Except.map] at hok
        | ok bs' =>
          have := ih (s + 1) bs' htail j (by omega)
          have he : s + 1 + j = s + (j + 1) := by omega
          rwa [he] at this

/-- Per-chunk reception logs are not storage upload calls. -/
theorem filter_isUpload_chunkLogs (ps : List (Nat × List Nat)) :
    (ps.map fun p => Output.chunkReceived p.1 p.2.length).filter isUpload = [] := by
  induction ps with
  | nil => rfl
  | cons p t ih => simp [List.filter, isUpload, ih]

/-- Per-chunk reception logs are not metadata insert calls. -/
theorem filter_isInsert_chunkLogs (ps : List (Nat × List Nat)) :
    (ps.map fun p => Output.chunkReceived p.1 p.2.length).filter isInsert = [] := by
  induction ps with
  | nil => rfl
  | cons p t ih => simp [List.filter, isInsert, ih]

/-- C4 counterexample: on the one-byte chunk payload `[5]` delivered in the
initial state, the handler raises `IndexError` (from `msg.payload[1]`)
instead of reporting `MalformedChunk` and dropping the message, so the
claimed no-crash handling does not hold. -/
theorem C4_counterexample :
    on_message "t" initialState (.chunk [5]) = .error .indexError := rfl

/-- C4 (amended): a chunk-topic message whose payload is exactly one byte
makes `on_message` raise `IndexError` at `msg.payload[1]`, before any
session state is assigned; there is no `MalformedChunk` report and the
handler does crash rather than drop the message. -/
theorem C4_one_byte_chunk_raises (now : String) (st : State) (b : Nat) :
    on_message now st (.chunk [b]) = .error .indexError := rfl

/-- C5: a chunk event whose leading two bytes decode to an index already in
the buffer is skipped with a `Duplicate chunk` log: the state — in
particular the payload stored under that index — is left entirely
unchanged, whatever the second arrival carried. -/
theorem C5_duplicate_chunk_ignored (now : String) (st : State) (b0 b1 : Nat)
    (data p : List Nat)
    (hp : st.received_data.lookup ((b0 <<< 8) ||| b1) = some p) :
    on_message now st (.chunk (b0 :: b1 :: data)) =
      .ok (st, [.duplicateChunk ((b0 <<< 8) ||| b1)]) ∧
    st.received_data.lookup ((b0 <<< 8) ||| b1) = some p := by
  refine ⟨?_, hp⟩
  simp [on_message, hp]

theorem C5_duplicate_chunk_ignored_witness :
    ((State.mk (some 5) [(3, [1, 2])] (some "q")).received_data.lookup ((0 <<< 8) ||| 3) =
      some [1, 2]) ∧
    (on_message "t" ⟨some 5, [(3, [1, 2])], some "q"⟩ (.chunk (0 :: 3 :: [99, 98])) =
        .ok (⟨some 5, [(3, [1, 2])], some "q"⟩, [.duplicateChunk ((0 <<< 8) ||| 3)]) ∧
      (State.mk (some 5) [(3, [1, 2])] (some "q")).received_data.lookup ((0 <<< 8) ||| 3) =
        some [1, 2]) :=
  ⟨by decide,
   C5_duplicate_chunk_ignored "t" ⟨some 5, [(3, [1, 2])], some "q"⟩ 0 3 [99, 98] [1, 2]
     (by decide)⟩

/-- C6: a metadata event arriving while a prior transfer is in progress
(`expected_chunks` set) replaces the session wholesale: the new state has
an empty buffer and the new total and transfer id, and the step makes no
storage upload call, so the prior buffered data is discarded unseen. -/
theorem C6_metadata_supersedes (now : String) (st : State) (total : Int)
    (id : Option String) (hprior : st.expected_chunks.isSome) :
    on_message now st (.info total id) =
      .ok (⟨some total, [], some (id.getD ("img-" ++ now))⟩,
           [.expecting total (id.getD ("img-" ++ now))]) ∧
    [Output.expecting total (id.getD ("img-" ++ now))].filter isUpload = [] :=
  ⟨rfl, rfl⟩

theorem C6_metadata_supersedes_witness :
    ((State.mk (some 2) [(0, [7])] (some "old")).expected_chunks.isSome) ∧
    (on_message "t" ⟨some 2, [(0, [7])], some "old"⟩ (.info 4 (some "new")) =
        .ok (⟨some 4, [], some ((some "new").getD ("img-" ++ "t"))⟩,
             [.expecting 4 ((some "new").getD ("img-" ++ "t"))]) ∧
      [Output.expecting 4 ((some "new").getD ("img-" ++ "t"))].filter isUpload = []) :=
  ⟨by decide, C6_metadata_supersedes "t" ⟨some 2, [(0, [7])], some "old"⟩ 4 (some "new")
    (by decide)⟩

/-- C7: an end marker received while no metadata has ever arrived
(`expected_chunks` unset) only prints the `No metadata` warning: the state
is returned unchanged, no storage call is made, and no exception is
raised. -/
theorem C7_end_marker_without_metadata (now : String) (st : State)
    (h : st.expected_chunks = none) :
    on_message now st (.chunk []) = .ok (st, [.noMetadataWarning]) := by
  simp [on_message, h]

theorem C7_end_marker_without_metadata_witness :
    (initialState.expected_chunks = none) ∧
    on_message "t" initialState (.chunk []) = .ok (initialState, [.noMetadataWarning]) :=
  ⟨rfl, C7_end_marker_without_metadata "t" initialState rfl⟩

/-- C10: after a metadata event with a zero or negative `total_chunks`, an
end marker completes the transfer instead of failing: `range(total)` is
empty, so the loop finds nothing missing, and the step performs exactly one
upload of a zero-byte artifact and one metadata insert. -/
theorem C10_nonpositive_total_completes (now : String) (st : State) (total : Int)
    (id : String) (htotal : total ≤ 0) :
    runMsgs now st [.info total (some id), .chunk []] =
      .ok (⟨none, [], some id⟩,
        [.expecting total id, .endMarkerLog, .stitched total,
         .uploadCall (id ++ ".jpg") [], .insertCall id "complete", .uploadedLog]) ∧
    ([Output.expecting total id, .endMarkerLog, .stitched total,
        .uploadCall (id ++ ".jpg") [], .insertCall id "complete",
        .uploadedLog].filter isMissingReport = [] ∧
     [Output.expecting total id, .endMarkerLog, .stitched total,
        .uploadCall (id ++ ".jpg") [], .insertCall id "complete",
        .uploadedLog].filter isUpload = [.uploadCall (id ++ ".jpg") []] ∧
     [Output.expecting total id, .endMarkerLog, .stitched total,
        .uploadCall (id ++ ".jpg") [], .insertCall id "complete",
        .uploadedLog].filter isInsert = [.insertCall id "complete"]) := by
  refine ⟨?_, rfl, rfl, rfl⟩
  have htn : total.toNat = 0 := Int.toNat_of_nonpos htotal
  simp [runMsgs, on_message, upload_image_and_insert, htn, assembleFrom]

theorem C10_nonpositive_total_completes_witness :
    ((-2 : Int) ≤ 0) ∧
    (runMsgs "t" initialState [.info (-2) (some "z"), .chunk []] =
        .ok (⟨none, [], some "z"⟩,
          [.expecting (-2) "z", .endMarkerLog, .stitched (-2),
           .uploadCall ("z" ++ ".jpg") [], .insertCall "z" "complete", .uploadedLog]) ∧
      ([Output.expecting (-2) "z", .endMarkerLog, .stitched (-2),
          .uploadCall ("z" ++ ".jpg") [], .insertCall "z" "complete",
          .uploadedLog].filter isMissingReport = [] ∧
       [Output.expecting (-2) "z", .endMarkerLog, .stitched (-2),
          .uploadCall ("z" ++ ".jpg") [], .insertCall "z" "complete",
          .uploadedLog].filter isUpload = [.uploadCall ("z" ++ ".jpg") []] ∧
       [Output.expecting (-2) "z", .endMarkerLog, .stitched (-2),
          .uploadCall ("z" ++ ".jpg") [], .insertCall "z" "complete",
          .uploadedLog].filter isInsert = [.insertCall "z" "complete"])) :=
  ⟨by decide, C10_nonpositive_total_completes "t" initialState (-2) "z" (by decide)⟩

/-- C2 counterexample: metadata announcing 3 chunks, one chunk with index 1
delivered, then the end marker.  Indices 0 and 2 are both absent, but the
handler reports only `Missing chunk 0` — the report is not the full list of
absent indices, refuting the claim that every absent index is listed. -/
theorem C2_counterexample :
    runMsgs "t" initialState [.info 3 (some "img-1"), .chunk [0, 1, 9], .chunk []] =
      .ok (⟨none, [], some "img-1"⟩,
        [.expecting 3 "img-1", .chunkReceived 1 1, .endMarkerLog, .missingChunk 0]) ∧
    Output.missingChunk 2 ∉
      ([Output.expecting 3 "img-1", .chunkReceived 1 1, .endMarkerLog,
        .missingChunk 0] : List Output) :=
  ⟨rfl, by decide⟩

/-- C2 (amended): when the end marker finds the buffer incomplete, the
handler reports only the first absent index `m` (every index below `m`
being present), makes no storage call, and resets the session
(`expected_chunks` cleared, buffer emptied). -/
theorem C2_first_missing_reported (now : String) (st : State) (n : Int) (m : Nat)
    (hn : st.expected_chunks = some n) (hm : (m : Int) < n)
    (habsent : st.received_data.lookup m = none)
    (hbelow : ∀ j, j < m → (st.received_data.lookup j).isSome) :
    on_message now st (.chunk []) =
      .ok (⟨none, [], st.image_id⟩, [.endMarkerLog, .missingChunk m]) := by
  have hfail : assembleFrom st.received_data 0 n.toNat = .error m :=
    assembleFrom_first_missing st.received_data n.toNat 0 m (Nat.zero_le m) (by omega)
      habsent (fun j _ hj => hbelow j hj)
  simp [on_message, hn, upload_image_and_insert, hfail]

theorem C2_first_missing_reported_witness :
    ((State.mk (some 3) [(1, [9])] (some "img-1")).expected_chunks = some 3) ∧
    (((0 : Nat) : Int) < 3) ∧
    ((State.mk (some 3) [(1, [9])] (some "img-1")).received_data.lookup 0 = none) ∧
    (∀ j, j < 0 →
      (((State.mk (some 3) [(1, [9])] (some "img-1")).received_data.lookup j).isSome)) ∧
    on_message "t" ⟨some 3, [(1, [9])], some "img-1"⟩ (.chunk []) =
      .ok (⟨none, [], some "img-1"⟩, [.endMarkerLog, .missingChunk 0]) :=
  ⟨rfl, by decide, by decide, by decide,
   C2_first_missing_reported "t" ⟨some 3, [(1, [9])], some "img-1"⟩ 3 0 rfl (by decide)
     (by decide) (by decide)⟩

/-- C3: when some index below the expected count is absent at finalization,
the handler's end-marker step performs neither the storage upload nor the
metadata insert: its outputs are the end-marker log and a single missing
report, so no partial artifact or record is ever persisted. -/
theorem C3_no_storage_on_incomplete (now : String) (st : State) (n : Int) (i : Nat)
    (hn : st.expected_chunks = some n) (hi : (i : Int) < n)
    (hmiss : st.received_data.lookup i = none) :
    ∃ m, on_message now st (.chunk []) =
        .ok (⟨none, [], st.image_id⟩, [.endMarkerLog, .missingChunk m]) ∧
      ([Output.endMarkerLog, Output.missingChunk m].filter isUpload = [] ∧
       [Output.endMarkerLog, Output.missingChunk m].filter isInsert = []) := by
  cases hres : assembleFrom st.received_data 0 n.toNat with
  | ok bs =>
    exfalso
    have hsome := assembleFrom_ok_lookup st.received_data n.toNat 0 bs hres i (by omega)
    rw [Nat.zero_add, hmiss] at hsome
    simp at hsome
  | error m =>
    refine ⟨m, ?_, rfl, rfl⟩
    simp [on_message, hn, upload_image_and_insert, hres]

theorem C3_no_storage_on_incomplete_witness :
    ((State.mk (some 3) [(1, [9])] (some "img-1")).expected_chunks = some 3) ∧
    (((0 : Nat) : Int) < 3) ∧
    ((State.mk (some 3) [(1, [9])] (some "img-1")).received_data.lookup 0 = none) ∧
    (∃ m, on_message "t" ⟨some 3, [(1, [9])], some "img-1"⟩ (.chunk []) =
        .ok (⟨none, [], some "img-1"⟩, [.endMarkerLog, .missingChunk m]) ∧
      ([Output.endMarkerLog, Output.missingChunk m].filter isUpload = [] ∧
       [Output.endMarkerLog, Output.missingChunk m].filter isInsert = [])) :=
  ⟨rfl, by decide, by decide,
   C3_no_storage_on_incomplete "t" ⟨some 3, [(1, [9])], some "img-1"⟩ 3 0 rfl (by decide)
     (by decide)⟩

/-- C8 counterexample: metadata announcing 1 chunk, then chunks with
indices 0 and 1.  The code has no upper-bound check on the decoded index,
so the buffer ends with 2 distinct indices while `expected_chunks = 1`,
refuting the claimed invariant. -/
theorem C8_counterexample :
    runMsgs "t" initialState [.info 1 (some "a"), .chunk [0, 0, 7], .chunk [0, 1, 8]] =
      .ok (⟨some 1, [(1, [8]), (0, [7])], some "a"⟩,
        [.expecting 1 "a", .chunkReceived 0 1, .chunkReceived 1 1]) ∧
    ¬ bufferBoundInv ⟨some 1, [(1, [8]), (0, [7])], some "a"⟩ :=
  ⟨rfl, by decide⟩

/-- One handler step preserves buffer well-formedness: for any really
deliverable message (byte values `< 256`), a successful step keeps the
buffered indices duplicate-free and below `2^16`. -/
theorem on_message_goodBuffer (now : String) (st : State) (m : Msg) (st' : State)
    (outs : List Output) (hv : validMsg m) (hg : goodBuffer st.received_data)
    (h : on_message now st m = .ok (st', outs)) : goodBuffer st'.received_data := by
  cases m with
  | info total id =>
    simp only [on_message, Except.ok.injEq, Prod.mk.injEq] at h
    rw [← h.1]
    exact ⟨List.nodup_nil, by simp⟩
  | other =>
    simp only [on_message, Except.ok.injEq, Prod.mk.injEq] at h
    rw [← h.1]
    exact hg
  | chunk payload =>
    match payload with
    | [] =>
      cases hexp : st.expected_chunks with
      | none =>
        simp only [on_message, hexp, Except.ok.injEq, Prod.mk.injEq] at h
        rw [← h.1]
        exact hg
      | some n =>
        simp only [on_message, hexp, Except.ok.injEq, Prod.mk.injEq] at h
        rw [← h.1]
        exact ⟨List.nodup_nil, by simp⟩
    | [b] => simp [on_message] at h
    | b0 :: b1 :: data =>
      have hb0 : b0 < 256 := hv b0 (List.mem_cons_self _ _)
      have hb1 : b1 < 256 := hv b1 (List.mem_cons_of_mem _ (List.mem_cons_self _ _))
      by_cases hdup : (st.received_data.lookup ((b0 <<< 8) ||| b1)).isSome
      · simp only [on_message, hdup, if_true, Except.ok.injEq, Prod.mk.injEq] at h
        rw [← h.1]
        exact hg
      · have hnone : st.received_data.lookup ((b0 <<< 8) ||| b1) = none := by
          cases hcase : st.received_data.lookup ((b0 <<< 8) ||| b1) with
          | none => rfl
          | some p => rw [hcase] at hdup; simp at hdup
        have hcomp : on_message now st (.chunk (b0 :: b1 :: data)) =
            .ok ({ st with received_data := ((b0 <<< 8) ||| b1, data) :: st.received_data },
                 [.chunkReceived ((b0 <<< 8) ||| b1) data.length]) := by
          simp [on_message, hnone]
        rw [hcomp] at h
        simp only [Except.ok.injEq, Prod.mk.injEq] at h
        rw [← h.1]
        have hnotmem : (b0 <<< 8) ||| b1 ∉ st.received_data.map Prod.fst :=
          (lookup_eq_none_iff st.received_data _).1 hnone
        have hlt : (b0 <<< 8) ||| b1 < 65536 := by
          have h1 : b0 <<< 8 < 65536 := by
            rw [Nat.shiftLeft_eq]
            have : (2 : Nat) ^ 8 = 256 := by norm_num
            rw [this]
            omega
          have h2 : b1 < 65536 := by omega
          have := Nat.or_lt_two_pow (n := 16) (by simpa using h1) (by simpa using h2)
          simpa using this
        refine ⟨List.Nodup.cons ?_ hg.1, ?_⟩
        · simpa using hnotmem
        · intro k hk
          simp only [List.map_cons, List.mem_cons] at hk
          rcases hk with hk1 | hk2
          · rw [hk1]; exact hlt
          · exact hg.2 k hk2

/-- Processing any sequence of deliverable messages preserves buffer
well-formedness. -/
theorem runMsgs_goodBuffer (now : String) :
    ∀ (msgs : List Msg) (st st' : State) (outs : List Output),
    (∀ m ∈ msgs, validMsg m) → goodBuffer st.received_data →
    runMsgs now st msgs = .ok (st', outs) → goodBuffer st'.received_data := by
  intro msgs
  induction msgs with
  | nil =>
    intro st st' outs _ hg h
    simp only [runMsgs, Except.ok.injEq, Prod.mk.injEq] at h
    rw [← h.1]
    exact hg
  | cons m ms ih =>
    intro st st' outs hv hg h
    simp only [runMsgs] at h
    cases hstep : on_message now st m with
    | error e => rw [hstep] at h; cases h
    | ok r =>
      obtain ⟨st1, o1⟩ := r
      rw [hstep] at h
      dsimp only at h
      cases hrest : runMsgs now st1 ms with
      | error e => rw [hrest] at h; cases h
      | ok r2 =>
        obtain ⟨st2, o2⟩ := r2
        rw [hrest] at h
        simp only [Except.ok.injEq, Prod.mk.injEq] at h
        rw [← h.1]
        have hg1 : goodBuffer st1.received_data :=
          on_message_goodBuffer now st m st1 o1 (hv m (List.mem_cons_self _ _)) hg hstep
        exact ih st1 st2 o2 (fun q hq => hv q (List.mem_cons_of_mem _ hq)) hg1 hrest

/-- A well-formed buffer holds at most `2^16` entries: its indices are
distinct naturals below `65536`. -/
theorem goodBuffer_length_le (l : List (Nat × List Nat)) (hg : goodBuffer l) :
    l.length ≤ 65536 := by
  have hsub : (l.map Prod.fst).toFinset ⊆ Finset.range 65536 := by
    intro x hx
    exact Finset.mem_range.2 (hg.2 x (List.mem_toFinset.1 hx))
  have hcard := Finset.card_le_card hsub
  rw [Finset.card_range, List.toFinset_card_of_nodup hg.1] at hcard
  simpa using hcard

/-- C8 (amended): the code never bounds the buffer by `expected_chunks`
(see the counterexample); what the chunk branch does maintain, for any
deliverable message sequence from the initial state, is that the buffered
indices stay duplicate-free — duplicates are rejected — and each fits in
the two transport bytes, so the buffer holds at most `2^16` distinct
indices. -/
theorem C8_buffer_bound_amended (now : String) (msgs : List Msg) (st' : State)
    (outs : List Output) (hv : ∀ m ∈ msgs, validMsg m)
    (h : runMsgs now initialState msgs = .ok (st', outs)) :
    (st'.received_data.map Prod.fst).Nodup ∧ st'.received_data.length ≤ 65536 := by
  have hg : goodBuffer st'.received_data :=
    runMsgs_goodBuffer now msgs initialState st' outs hv
      ⟨List.nodup_nil, by simp [initialState]⟩ h
  exact ⟨hg.1, goodBuffer_length_le _ hg⟩

theorem C8_buffer_bound_amended_witness :
    (∀ m ∈ [Msg.chunk [0, 1, 5]], validMsg m) ∧
    (((State.mk none [(1, [5])] none).received_data.map Prod.fst).Nodup ∧
     (State.mk none [(1, [5])] none).received_data.length ≤ 65536) :=
  ⟨by decide,
   C8_buffer_bound_amended "t" [Msg.chunk [0, 1, 5]] ⟨none, [(1, [5])], none⟩
     [.chunkReceived 1 1] (by decide) rfl⟩

/-- C9 counterexample: a chunk with index 0 delivered before any metadata,
then metadata announcing 1 chunk, then the end marker.  The metadata
branch clears the buffer, so the pre-metadata chunk is gone: finalization
reports `Missing chunk 0` and makes no upload, refuting the claim that the
buffered chunk counts toward completion. -/
theorem C9_counterexample :
    runMsgs "t" initialState [.chunk [0, 0, 7], .info 1 (some "x"), .chunk []] =
      .ok (⟨none, [], some "x"⟩,
        [.chunkReceived 0 1, .expecting 1 "x", .endMarkerLog, .missingChunk 0]) ∧
    ([Output.chunkReceived 0 1, .expecting 1 "x", .endMarkerLog,
        .missingChunk 0].filter isUpload = []) :=
  ⟨rfl, rfl⟩

/-- C9 (amended): a chunk arriving before metadata is indeed buffered under
the provisional session (`expected_chunks` still unset), but the later
metadata event clears the buffer, so the previously buffered chunk does
not count toward completing the transfer. -/
theorem C9_pre_metadata_chunk_discarded (now : String) (st : State) (b0 b1 : Nat)
    (data : List Nat) (total : Int) (id : Option String)
    (hpre : st.expected_chunks = none)
    (hfresh : st.received_data.lookup ((b0 <<< 8) ||| b1) = none) :
    ∃ st1 : State,
      on_message now st (.chunk (b0 :: b1 :: data)) =
        .ok (st1, [.chunkReceived ((b0 <<< 8) ||| b1) data.length]) ∧
      st1.received_data.lookup ((b0 <<< 8) ||| b1) = some data ∧
      st1.expected_chunks = none ∧
      ∀ st2 outs2, on_message now st1 (.info total id) = .ok (st2, outs2) →
        st2.received_data = [] := by
  refine ⟨{ st with received_data := ((b0 <<< 8) ||| b1, data) :: st.received_data },
    ?_, ?_, hpre, ?_⟩
  · simp [on_message, hfresh]
  · simp [List.lookup]
  · intro st2 outs2 h
    simp only [on_message, Except.ok.injEq, Prod.mk.injEq] at h
    rw [← h.1]

theorem C9_pre_metadata_chunk_discarded_witness :
    (initialState.expected_chunks = none) ∧
    (initialState.received_data.lookup ((0 <<< 8) ||| 0) = none) ∧
    (∃ st1 : State,
      on_message "t" initialState (.chunk (0 :: 0 :: [7])) =
        .ok (st1, [.chunkReceived ((0 <<< 8) ||| 0) 1]) ∧
      st1.received_data.lookup ((0 <<< 8) ||| 0) = some [7] ∧
      st1.expected_chunks = none ∧
      ∀ st2 outs2, on_message "t" st1 (.info 1 (some "x")) = .ok (st2, outs2) →
        st2.received_data = []) :=
  ⟨rfl, by decide,
   C9_pre_metadata_chunk_discarded "t" initialState 0 0 [7] 1 (some "x") rfl (by decide)⟩

/-- C1: after metadata announcing `N > 0` chunks under transfer id `tid`,
delivery of a chunk message for every index in `[0, N)` exactly once — in
any order, each with a nonempty payload — followed by the end marker makes
the session complete (state reset, transfer id retained): the run performs
exactly one storage upload, under the key `tid ++ ".jpg"`, of the
byte-exact concatenation of the payloads in index order, and exactly one
metadata insert. -/
theorem C1_complete_transfer (now tid : String) (N : Nat) (hN : 0 < N)
    (payloads : Nat → List Nat) (hpl : ∀ i, i < N → payloads i ≠ [])
    (ps : List (Nat × List Nat))
    (hperm : ps.Perm ((List.range N).map fun i => (i, payloads i))) :
    ∃ outs : List Output,
      runMsgs now initialState
          (Msg.info (N : Int) (some tid) :: (ps.map chunkMsgOf ++ [Msg.chunk []])) =
        .ok (⟨none, [], some tid⟩, outs) ∧
      outs.filter isUpload =
        [Output.uploadCall (tid ++ ".jpg") (((List.range N).map payloads).flatten)] ∧
      outs.filter isInsert = [Output.insertCall tid "complete"] := by
  -- the delivered indices are exactly 0..N-1, hence duplicate-free
  have hmapfst : (((List.range N).map fun i => (i, payloads i)).map Prod.fst) =
      List.range N := by
    rw [List.map_map]
    exact List.map_id _
  have hnodup : (ps.map Prod.fst).Nodup := by
    have hp := hperm.map Prod.fst
    rw [hmapfst] at hp
    exact hp.nodup_iff.2 (List.nodup_range N)
  -- run the chunk messages over the fresh session state
  have hchunks := runMsgs_chunks now ⟨some (N : Int), [], some tid⟩ ps hnodup
    (fun p _ => rfl)
  simp only [List.append_nil] at hchunks
  -- every expected index is buffered with its payload
  have hrevnodup : (ps.reverse.map Prod.fst).Nodup := by
    rw [List.map_reverse]
    exact List.nodup_reverse.2 hnodup
  have hlook : ∀ j, j < N → ps.reverse.lookup j = some (payloads j) := by
    intro j hj
    apply lookup_eq_some_of_mem_nodup hrevnodup
    rw [List.mem_reverse]
    exact hperm.mem_iff.2 (List.mem_map.2 ⟨j, List.mem_range.2 hj, rfl⟩)
  -- the reassembly loop therefore succeeds with the in-order concatenation
  have hassemble : assembleFrom ps.reverse 0 N =
      .ok (((List.range N).map payloads).flatten) := by
    have hbase := assembleFrom_complete ps.reverse payloads N 0
      (fun j hj => by rw [Nat.zero_add]; exact hlook j hj)
    have hmapeq : (List.range N).map (fun j => payloads (0 + j)) =
        (List.range N).map payloads :=
      List.map_congr_left (fun j _ => by rw [Nat.zero_add])
    rw [hbase, hmapeq]
  -- the end-marker step stitches, uploads once and inserts once
  have hend : runMsgs now ⟨some (N : Int), ps.reverse, some tid⟩ [Msg.chunk []] =
      .ok (⟨none, [], some tid⟩,
        [.endMarkerLog, .stitched (N : Int),
         .uploadCall (tid ++ ".jpg") (((List.range N).map payloads).flatten),
         .insertCall tid "complete", .uploadedLog]) := by
    simp [runMsgs, on_message, upload_image_and_insert, hassemble]
  refine ⟨Output.expecting (N : Int) tid ::
      ((ps.map fun p => Output.chunkReceived p.1 p.2.length) ++
        [Output.endMarkerLog, Output.stitched (N : Int),
         Output.uploadCall (tid ++ ".jpg") (((List.range N).map payloads).flatten),
         Output.insertCall tid "complete", Output.uploadedLog]), ?_, ?_, ?_⟩
  · have hstep1 : on_message now initialState (.info (N : Int) (some tid)) =
        .ok (⟨some (N : Int), [], some tid⟩, [.expecting (N : Int) tid]) := rfl
    have happ := runMsgs_append now ⟨some (N : Int), [], some tid⟩
      (ps.map chunkMsgOf) [Msg.chunk []]
    rw [hchunks] at happ
    dsimp only at happ
    rw [hend] at happ
    dsimp only at happ
    simp only [runMsgs]
    rw [hstep1]
    dsimp only
    rw [happ]
    simp
  · simp only [List.filter_cons, List.filter_append, filter_isUpload_chunkLogs]
    simp [isUpload]
  · simp only [List.filter_cons, List.filter_append, filter_isInsert_chunkLogs]
    simp [isInsert]

theorem C1_complete_transfer_witness :
    (0 < 3) ∧
    (∀ i, i < 3 → ([[10], [20], [30]].getD i []) ≠ ([] : List Nat)) ∧
    List.Perm [((0 : Nat), [(10 : Nat)]), (2, [30]), (1, [20])]
      ((List.range 3).map fun i => (i, [[10], [20], [30]].getD i [])) ∧
    (∃ outs : List Output,
      runMsgs "t" initialState
          (Msg.info ((3 : Nat) : Int) (some "img-1") ::
            ([((0 : Nat), [(10 : Nat)]), (2, [30]), (1, [20])].map chunkMsgOf ++
              [Msg.chunk []])) =
        .ok (⟨none, [], some "img-1"⟩, outs) ∧
      outs.filter isUpload =
        [Output.uploadCall ("img-1" ++ ".jpg")
          (((List.range 3).map fun i => [[10], [20], [30]].getD i []).flatten)] ∧
      outs.filter isInsert = [Output.insertCall "img-1" "complete"]) :=
  ⟨by decide, by decide, by decide,
   C1_complete_transfer "t" "img-1" 3 (by decide)
     (fun i => [[10], [20], [30]].getD i []) (by decide)
     [((0 : Nat), [(10 : Nat)]), (2, [30]), (1, [20])] (by decide)⟩

end GXP
